import Mathlib

/-!
Verification of the intent-router and NL-to-SQL pipeline of the AI-QnA-App
repository.  The Python modules `app/llm/router.py` and `app/brain/router.py`
are shallowly embedded below: each regular-expression operation used by the
code is realised as an explicit, executable scanner over `List Char` with the
exact semantics of the Python pattern (case-insensitive matching, `\b` word
boundaries against ASCII word characters, greedy `\s+`/`\d+` runs, and
`re.sub`-style leftmost non-overlapping replacement).  Completion backends
are modelled as free parameters describing every observable behaviour
(not importable / raising on call / returning an arbitrary string), and
functions that can propagate a Python exception return `Except`.
-/

/-- ASCII whitespace, matching Python's `str.strip` and `\s` on ASCII text. -/
def isWs (c : Char) : Bool :=
  c.toNat = 32 || c.toNat = 9 || c.toNat = 10 || c.toNat = 13 || c.toNat = 11 || c.toNat = 12

/-- ASCII decimal digit, matching `\d` on ASCII text. -/
def isDigit (c : Char) : Bool :=
  48 ≤ c.toNat && c.toNat ≤ 57

/-- ASCII letter. -/
def isAlpha (c : Char) : Bool :=
  (65 ≤ c.toNat && c.toNat ≤ 90) || (97 ≤ c.toNat && c.toNat ≤ 122)

/-- Regex word character `\w` (ASCII): letter, digit or underscore. -/
def isWordChar (c : Char) : Bool :=
  isAlpha c || isDigit c || c.toNat = 95

/-- ASCII lower-casing of one character, matching Python `str.lower` on ASCII. -/
def lowerChar (c : Char) : Char :=
  if 65 ≤ c.toNat && c.toNat ≤ 90 then Char.ofNat (c.toNat + 32) else c

/-- Python `str.strip()` on a character list (ASCII whitespace). -/
def trimList (l : List Char) : List Char :=
  ((l.dropWhile isWs).reverse.dropWhile isWs).reverse

/-- Python `str.strip()`. -/
def pyStrip (s : String) : String :=
  ⟨trimList s.data⟩

/-- Python `str.lower()` (ASCII). -/
def asciiLower (s : String) : String :=
  ⟨s.data.map lowerChar⟩

/-- `s.strip().lower()`, the normal form both routers compute first. -/
def lowerTrim (s : String) : String :=
  asciiLower (pyStrip s)

/-- `isPfxL p l`: `p` is a literal prefix of `l` (Python `str.startswith`). -/
def isPfxL : List Char → List Char → Bool
  | [], _ => true
  | _ :: _, [] => false
  | p :: ps, c :: cs => p = c && isPfxL ps cs

/-- `hasSubL l p`: `p` occurs as a contiguous substring of `l`
(Python's `p in l`). -/
def hasSubL : List Char → List Char → Bool
  | [], p => isPfxL p []
  | c :: cs, p => isPfxL p (c :: cs) || hasSubL cs p

/-- Substring test on strings (Python `in`). -/
def hasSubStr (s pat : String) : Bool :=
  hasSubL s.data pat.data

/-- Case-insensitive literal prefix match (regex `(?i)` on a literal).
Returns the consumed original characters and the remainder. -/
def ciPref : List Char → List Char → Option (List Char × List Char)
  | [], l => some ([], l)
  | _ :: _, [] => none
  | p :: ps, c :: cs =>
      if lowerChar c = lowerChar p then
        match ciPref ps cs with
        | some (m, r) => some (c :: m, r)
        | none => none
      else none

/-- `\b` on the left of a match: the previous character (if any) is not a
word character.  `none` stands for the start of the string. -/
def boundaryB : Option Char → Bool
  | none => true
  | some c => !(isWordChar c)

/-- Attempt to match `limit\s+\d+\b` (case-insensitive) at the head of `l`,
assuming the left `\b` was already checked by the caller.  Returns the last
matched character (to thread the boundary context), the digit run, and the
remainder after the match.  The greedy runs are deterministic here: shrinking
`\s+` or `\d+` can never repair a failed continuation for this pattern. -/
def matchLimitHere (l : List Char) : Option (Char × List Char × List Char) :=
  match l with
  | c1 :: c2 :: c3 :: c4 :: c5 :: rest =>
      if lowerChar c1 = 'l' && lowerChar c2 = 'i' && lowerChar c3 = 'm' &&
         lowerChar c4 = 'i' && lowerChar c5 = 't' then
        let ws := rest.takeWhile isWs
        let r2 := rest.dropWhile isWs
        if ws.isEmpty then none else
        let ds := r2.takeWhile isDigit
        let r3 := r2.dropWhile isDigit
        if ds.isEmpty then none else
        match r3 with
        | [] => some (ds.getLastD '0', ds, [])
        | x :: _ => if isWordChar x then none else some (ds.getLastD '0', ds, r3)
      else none
  | _ => none

/-- Leftmost match of `\blimit\s+\d+\b`: the digit run of the first match,
scanning with the previous-character context `prev`.  This is
`re.search(r"\blimit\s+\d+\b", s, re.IGNORECASE)`. -/
def firstBoundAux : Option Char → List Char → Option (List Char)
  | _, [] => none
  | prev, c :: cs =>
      if boundaryB prev then
        match matchLimitHere (c :: cs) with
        | some (_, ds, _) => some ds
        | none => firstBoundAux (some c) cs
      else firstBoundAux (some c) cs

/-- Digits of the first row-limit clause of a string, if any. -/
def firstBoundStr (s : String) : Option String :=
  (firstBoundAux none s.data).map (fun ds => ⟨ds⟩)

/-- Presence of a row-limit clause (`re.search` is some). -/
def hasLimitL (l : List Char) : Bool :=
  (firstBoundAux none l).isSome

/-- Presence of a row-limit clause in a string. -/
def hasLimitStr (s : String) : Bool :=
  hasLimitL s.data

/-- Number of non-overlapping `\blimit\s+\d+\b` matches: the length of
`list(re.finditer(...))`.  After a match the scan resumes at the match end,
with the last matched character as boundary context, exactly as `finditer`
rescans the original string.  Fuel-driven so the kernel can evaluate it;
`fuel ≥ length` always suffices since every step consumes a character. -/
def countLimitFuel : Nat → Option Char → List Char → Nat
  | 0, _, _ => 0
  | _ + 1, _, [] => 0
  | fuel + 1, prev, c :: cs =>
      if boundaryB prev then
        match matchLimitHere (c :: cs) with
        | some (last, _, rest) => 1 + countLimitFuel fuel (some last) rest
        | none => countLimitFuel fuel (some c) cs
      else countLimitFuel fuel (some c) cs

/-- Number of row-limit clauses in a string. -/
def countLimitStr (s : String) : Nat :=
  countLimitFuel s.data.length none s.data

/-- `re.sub(r"\blimit\s+\d+\b", "", s, re.IGNORECASE)`: delete every
non-overlapping match, leftmost first. -/
def subLimitsFuel : Nat → Option Char → List Char → List Char
  | 0, _, l => l
  | _ + 1, _, [] => []
  | fuel + 1, prev, c :: cs =>
      if boundaryB prev then
        match matchLimitHere (c :: cs) with
        | some (last, _, rest) => subLimitsFuel fuel (some last) rest
        | none => c :: subLimitsFuel fuel (some c) cs
      else c :: subLimitsFuel fuel (some c) cs

/-- Delete every row-limit clause from a character list. -/
def subLimitsL (l : List Char) : List Char :=
  subLimitsFuel l.length none l

/-- Attempt to match a whole ci word `w` (`\bW\b` under `re.IGNORECASE`) at
the head of `l`; the left boundary is the caller's duty.  Returns the last
matched original character and the remainder. -/
def wordMatchHere (w l : List Char) : Option (Char × List Char) :=
  match ciPref w l with
  | none => none
  | some (m, r) =>
      match r with
      | [] => some (m.getLastD '_', [])
      | x :: _ => if isWordChar x then none else some (m.getLastD '_', r)

/-- Does `\bW\b` (case-insensitive) match anywhere in `l`? -/
def hasWordAux (w : List Char) : Option Char → List Char → Bool
  | _, [] => false
  | prev, c :: cs =>
      (boundaryB prev && (wordMatchHere w (c :: cs)).isSome) || hasWordAux w (some c) cs

/-- Whole-word (case-insensitive) occurrence in a string. -/
def hasWordStr (s w : String) : Bool :=
  hasWordAux w.data none s.data

/-- `re.sub(rf"\b{w}\b", repl, s, re.IGNORECASE)`: replace every
non-overlapping whole-word match, scanning the original text. -/
def subWordFuel (w repl : List Char) : Nat → Option Char → List Char → List Char
  | 0, _, l => l
  | _ + 1, _, [] => []
  | fuel + 1, prev, c :: cs =>
      if boundaryB prev then
        match wordMatchHere w (c :: cs) with
        | some (last, rest) => repl ++ subWordFuel w repl fuel (some last) rest
        | none => c :: subWordFuel w repl fuel (some c) cs
      else c :: subWordFuel w repl fuel (some c) cs

/-- Whole-word replacement on a character list. -/
def subWordL (w repl l : List Char) : List Char :=
  subWordFuel w repl l.length none l

/-- `re.sub(r";\s*$", "", s)`: if some `;` is followed only by whitespace up
to the end of the string, delete it together with that whitespace (both ways
`$` can match collapse to this, since a final newline is itself `\s`).  At
most one such `;` can exist, so one deletion is the general case. -/
def rstripSemiWs (l : List Char) : List Char :=
  match (l.reverse.dropWhile isWs) with
  | ';' :: rest => rest.reverse
  | _ => l

/-- Python `str.rstrip(";")`: drop every trailing semicolon. -/
def rstripSemis (l : List Char) : List Char :=
  (l.reverse.dropWhile (fun c => c = ';')).reverse

/-- One scanning pass of `re.sub(r"^```[a-zA-Z]*|```$", "", s, re.MULTILINE)`.
`lineStart` tracks whether the current position is `^` (start of text or just
after a newline).  At each position the first alternative (a line-initial
fence plus its language tag) is tried before the second (a fence at `$`,
i.e. before a newline or at the end); after a match the scan resumes at the
match end, whose preceding character is never a newline. -/
def fenceSubFuel (bq : Char) : Nat → Bool → List Char → List Char
  | 0, _, l => l
  | _ + 1, _, [] => []
  | fuel + 1, lineStart, c :: cs =>
      if lineStart && isPfxL [bq, bq, bq] (c :: cs) then
        fenceSubFuel bq fuel false ((cs.drop 2).dropWhile isAlpha)
      else if isPfxL [bq, bq, bq] (c :: cs) &&
              ((cs.drop 2).isEmpty || (cs.drop 2).headD ' ' = '\n') then
        fenceSubFuel bq fuel false (cs.drop 2)
      else c :: fenceSubFuel bq fuel (c = '\n') cs

/-- `_strip_fences` from `app/llm/router.py`: remove code-fence markers,
then `.strip().rstrip(";")`. -/
def strip_fences (s : String) : String :=
  ⟨rstripSemis (trimList (fenceSubFuel (Char.ofNat 96) s.data.length true s.data))⟩

/-- `re.match(r"(?is)^\s*select\s+top\s+(\d+)\s+(.*)$", s)`: the leading
vendor row-limit form.  Returns the captured digit run and the trailing
expression text.  All quantifiers are deterministic here (each greedy run is
followed by a character class it cannot match). -/
def topMatch (l : List Char) : Option (List Char × List Char) :=
  match ciPref "select".data (l.dropWhile isWs) with
  | none => none
  | some (_, l2) =>
      if (l2.takeWhile isWs).isEmpty then none else
      match ciPref "top".data (l2.dropWhile isWs) with
      | none => none
      | some (_, l4) =>
          if (l4.takeWhile isWs).isEmpty then none else
          let l5 := l4.dropWhile isWs
          let ds := l5.takeWhile isDigit
          let l6 := l5.dropWhile isDigit
          if ds.isEmpty then none else
          if (l6.takeWhile isWs).isEmpty then none else
          some (ds, l6.dropWhile isWs)

/-- `_normalize_sqlite` from `app/llm/router.py`:
1. rewrite a leading `SELECT TOP n` to `SELECT ...` plus a trailing
   `LIMIT n` when no row-limit clause is present;
2. `ILIKE` → `LIKE`; 3. `TRUE`/`FALSE` → `1`/`0` (whole words, ci);
4. if more than one row-limit clause remains, delete them all, strip a
   trailing `;`, and re-append the first clause's bound. -/
def normalize_sqlite (sql : String) : String :=
  let s0 := (pyStrip sql).data
  let s1 :=
    match topMatch s0 with
    | some (n, rest) =>
        let t := "SELECT ".data ++ rest
        if hasLimitL t then t else t ++ " LIMIT ".data ++ n
    | none => s0
  let s2 := subWordL "ilike".data "LIKE".data s1
  let s3 := subWordL "true".data "1".data s2
  let s4 := subWordL "false".data "0".data s3
  let s5 :=
    if countLimitFuel s4.length none s4 > 1 then
      let sWo := trimList (rstripSemiWs (subLimitsL s4))
      let firstNum := (firstBoundAux none s4).getD []
      if hasLimitL sWo then sWo else sWo ++ " LIMIT ".data ++ firstNum
    else s4
  ⟨s5⟩

/-- The denylist of `_is_read_only` in `app/llm/router.py`: each token
carries its trailing space, and is looked up as a raw substring. -/
def forbiddenTokens : List String :=
  ["insert ", "update ", "delete ", "drop ", "alter ", "create ",
   "truncate ", "replace ", "attach ", "pragma ", "vacuum ", "reindex "]

/-- `_is_read_only` from `app/llm/router.py`: the stripped, lowercased text
must start with `select` and contain none of the denylist substrings. -/
def is_read_only (sql : String) : Bool :=
  isPfxL "select".data (lowerTrim sql).data &&
  !(forbiddenTokens.any (fun tok => hasSubL (lowerTrim sql).data tok.data))

/-- `_ensure_limit` from `app/llm/router.py`: append `LIMIT default_limit`
when no row-limit clause is present. -/
def ensure_limit (sql : String) (default_limit : Nat) : String :=
  if hasLimitStr sql then sql else sql ++ " LIMIT " ++ Nat.repr default_limit

/-- Observable behaviour of the locally-hosted backend (`_use_ollama` plus
its `chat` call): the import may fail (`None`), the chat call may raise, or
it returns some completion text. -/
inductive OllamaB
  | unavailable
  | chatError
  | answers (s : String)
deriving DecidableEq

/-- Observable behaviour of the hosted-API backend (`_use_openai` plus the
completion call): no key configured (`None`), the import/client construction
raises, the completion call raises, or it returns some completion text. -/
inductive OpenaiB
  | notConfigured
  | importError
  | chatError
  | answers (s : String)
deriving DecidableEq

/-- Exceptions `generate_sql_from_nl` can propagate: the second backend's
`ValueError` on non-read-only output, an uncaught client-construction or
completion error of the hosted backend, or `RuntimeError` when no backend
is available. -/
inductive GenErr
  | validationError
  | openaiImportError
  | openaiChatError
  | noBackend
deriving DecidableEq

/-- `generate_sql_from_nl` from `app/llm/router.py`.  The locally-hosted
backend is tried first inside `try/except Exception: pass`, so its chat
errors AND its `ValueError` on failed validation fall through to the hosted
backend; the hosted backend's block has no handler, so its failures raise.
The prompt strings do not influence control flow and are kept as inputs. -/
def generate_sql_from_nl (nl_question schema_snapshot : String)
    (ol : OllamaB) (oa : OpenaiB) : Except GenErr String :=
  let viaOpenai : Except GenErr String :=
    match oa with
    | .notConfigured => .error .noBackend
    | .importError => .error .openaiImportError
    | .chatError => .error .openaiChatError
    | .answers content =>
        let sql := normalize_sqlite (strip_fences content)
        if is_read_only sql then .ok (ensure_limit sql 1000)
        else .error .validationError
  match ol with
  | .answers content =>
      let sql := normalize_sqlite (strip_fences content)
      if is_read_only sql then .ok (ensure_limit sql 1000) else viaOpenai
  | _ => viaOpenai

/-- The one exception `repair_sql_with_error` can propagate: the hosted
backend's client construction (`_use_openai`) raising outside any handler. -/
inductive RepErr
  | openaiImportError
deriving DecidableEq

/-- `repair_sql_with_error` from `app/llm/router.py`.  A pure normalization
short-circuit runs first; otherwise the locally-hosted backend's answer is
validated (returning `None` on failure), and the hosted backend's whole
block sits in `try/except: return None` — but the client construction does
not. -/
def repair_sql_with_error (nl_question schema_snapshot bad_sql error_msg : String)
    (ol : OllamaB) (oa : OpenaiB) : Except RepErr (Option String) :=
  let norm := normalize_sqlite bad_sql
  if norm != bad_sql && is_read_only norm then
    .ok (some (ensure_limit norm 1000))
  else
    let viaOpenai : Except RepErr (Option String) :=
      match oa with
      | .notConfigured => .ok none
      | .importError => .error .openaiImportError
      | .chatError => .ok none
      | .answers content =>
          let sql := normalize_sqlite (strip_fences content)
          if is_read_only sql then .ok (some (ensure_limit sql 1000)) else .ok none
    match ol with
    | .answers content =>
        let sql := normalize_sqlite (strip_fences content)
        if is_read_only sql then .ok (some (ensure_limit sql 1000)) else .ok none
    | _ => viaOpenai

/-- The four intent labels of `app/brain/router.py`. -/
inductive Intent
  | crm_db
  | external_10k
  | external_news
  | offtopic
deriving DecidableEq

/-- `CRM_WORDS` from `app/brain/router.py`. -/
def CRM_WORDS : List String :=
  ["account", "accounts", "opportunity", "opportunities", "engagement", "engagements",
   "ae", "account executive", "stage", "pipeline", "close date", "won", "lost",
   "product", "line item"]

/-- `NEWS_WORDS` from `app/brain/router.py`. -/
def NEWS_WORDS : List String :=
  ["news", "headline", "headlines", "press", "press release", "article", "coverage",
   "latest", "recent", "what's new", "update", "updates", "today", "breaking"]

/-- `K10K_WORDS` from `app/brain/router.py`. -/
def K10K_WORDS : List String :=
  ["10k", "10-k", "annual report", "form 10-k", "risk factors", "md&a",
   "management discussion", "sec filing", "sec filings", "filing", "filings"]

/-- Parse a backend reply into an intent label: the reply is stripped,
lowercased and must equal one of the four labels exactly. -/
def parseLabel (s : String) : Option Intent :=
  if lowerTrim s = "crm_db" then some .crm_db
  else if lowerTrim s = "external_10k" then some .external_10k
  else if lowerTrim s = "external_news" then some .external_news
  else if lowerTrim s = "offtopic" then some .offtopic
  else none

/-- The exception `classify_intent` can propagate: `client = _use_openai()`
is evaluated outside the `try` block, so a failing import of the hosted
backend's library (with the key configured) raises to the caller. -/
inductive BrainErr
  | openaiImportError
deriving DecidableEq

/-- `classify_intent` from `app/brain/router.py`: keyword gate over the
three fixed vocabularies (filing first, news second, CRM third, raw
substring containment on the stripped lowercased question), then the
completion tie-break (locally-hosted backend first, all its failures
swallowed; hosted backend next, with only the completion call guarded),
and finally the `crm_db` default. -/
def classify_intent (question : String) (ol : OllamaB) (oa : OpenaiB) :
    Except BrainErr Intent :=
  let q := lowerTrim question
  if K10K_WORDS.any (fun w => hasSubStr q w) then .ok .external_10k
  else if NEWS_WORDS.any (fun w => hasSubStr q w) then .ok .external_news
  else if CRM_WORDS.any (fun w => hasSubStr q w) then .ok .crm_db
  else
    let viaOpenai : Except BrainErr Intent :=
      match oa with
      | .notConfigured => .ok .crm_db
      | .importError => .error .openaiImportError
      | .chatError => .ok .crm_db
      | .answers s =>
          match parseLabel s with
          | some i => .ok i
          | none => .ok .crm_db
    match ol with
    | .answers s =>
        match parseLabel s with
        | some i => .ok i
        | none => viaOpenai
    | _ => viaOpenai

/-- Modelled from the spec: the read-only rule as §4.5 words it, with the
denylist applied as a whole-word/token match (`\btok\b`) instead of the
code's raw substring check; the spec's "attach-database" token is taken as
the word `attach`.  Used to compare the specified rule with `is_read_only`. -/
def spec_is_read_only (sql : String) : Bool :=
  isPfxL "select".data (lowerTrim sql).data &&
  !(["insert", "update", "delete", "drop", "alter", "create", "truncate",
     "replace", "attach", "pragma", "vacuum", "reindex"].any
      (fun tok => hasWordStr (lowerTrim sql) tok))

theorem isPfxL_iff (p l : List Char) : isPfxL p l = true ↔ ∃ t, l = p ++ t := by
  induction p generalizing l with
  | nil => simp [isPfxL]
  | cons x xs ih =>
      cases l with
      | nil => simp [isPfxL]
      | cons c cs =>
          simp only [isPfxL, Bool.and_eq_true, decide_eq_true_eq, ih, List.cons_append]
          constructor
          · rintro ⟨rfl, t, rfl⟩
            exact ⟨t, rfl⟩
          · rintro ⟨t, h⟩
            injection h with h1 h2
            exact ⟨h1.symm, t, h2⟩

theorem hasSubL_iff (l p : List Char) : hasSubL l p = true ↔ ∃ a b, l = a ++ (p ++ b) := by
  induction l with
  | nil =>
      simp only [hasSubL, isPfxL_iff]
      constructor
      · rintro ⟨t, h⟩
        obtain ⟨rfl, rfl⟩ := List.append_eq_nil.mp h.symm
        exact ⟨[], [], rfl⟩
      · rintro ⟨a, b, h⟩
        obtain ⟨rfl, h2⟩ := List.append_eq_nil.mp h.symm
        obtain ⟨rfl, rfl⟩ := List.append_eq_nil.mp h2
        exact ⟨[], rfl⟩
  | cons c cs ih =>
      simp only [hasSubL, Bool.or_eq_true, isPfxL_iff, ih]
      constructor
      · rintro (⟨t, h⟩ | ⟨a, b, rfl⟩)
        · exact ⟨[], t, by simpa using h⟩
        · exact ⟨c :: a, b, rfl⟩
      · rintro ⟨a, b, h⟩
        cases a with
        | nil => exact Or.inl ⟨b, by simpa using h⟩
        | cons a0 as =>
            rw [List.cons_append] at h
            injection h with h1 h2
            exact Or.inr ⟨as, b, h2⟩

theorem subWordFuel_id (w repl : List Char) :
    ∀ (l : List Char) (prev : Option Char) (f : Nat),
      hasWordAux w prev l = false → subWordFuel w repl f prev l = l := by
  intro l
  induction l with
  | nil => intro prev f _; cases f <;> rfl
  | cons c cs ih =>
      intro prev f h
      simp only [hasWordAux, Bool.or_eq_false_iff] at h
      obtain ⟨h1, h2⟩ := h
      cases f with
      | zero => rfl
      | succ f =>
          by_cases hb : boundaryB prev = true
          · rw [hb, Bool.true_and] at h1
            rcases ho : wordMatchHere w (c :: cs) with _ | v
            · simp only [subWordFuel, if_pos hb, ho]
              rw [ih _ _ h2]
            · rw [ho] at h1
              simp at h1
          · simp only [subWordFuel, if_neg hb]
            rw [ih _ _ h2]

theorem countLimitFuel_nil (f : Nat) (prev : Option Char) : countLimitFuel f prev [] = 0 := by
  cases f <;> rfl

def limSfx (ds : List Char) : List Char :=
  ' ' :: 'L' :: 'I' :: 'M' :: 'I' :: 'T' :: ' ' :: ds

theorem dw_nil_all {α : Type} (p : α → Bool) (l : List α) (h : l.dropWhile p = []) :
    ∀ x ∈ l, p x = true := by
  induction l with
  | nil => simp
  | cons c cs ih =>
      intro x hx
      rw [List.dropWhile_cons] at h
      by_cases hc : p c = true
      · rw [if_pos hc] at h
        rcases List.mem_cons.mp hx with rfl | hx
        · exact hc
        · exact ih h x hx
      · rw [if_neg hc] at h
        cases h

theorem dw_head_false {α : Type} (p : α → Bool) (l : List α) (y : α) (ys : List α)
    (h : l.dropWhile p = y :: ys) : p y = false := by
  induction l with
  | nil => cases h
  | cons c cs ih =>
      rw [List.dropWhile_cons] at h
      by_cases hc : p c = true
      · exact ih (by rwa [if_pos hc] at h)
      · rw [if_neg hc] at h
        injection h with h1 _
        subst h1
        exact Bool.eq_false_iff.mpr hc

theorem tw_of_all {α : Type} (p : α → Bool) (l : List α) (h : ∀ x ∈ l, p x = true) :
    l.takeWhile p = l := by
  induction l with
  | nil => rfl
  | cons c cs ih =>
      rw [List.takeWhile_cons, if_pos (h c (by simp)), ih (fun x hx => h x (by simp [hx]))]

theorem tw_split_append {α : Type} (p : α → Bool) (l sfx : List α) (z : α) (zs : List α)
    (hd : l.dropWhile p = z :: zs) :
    (l ++ sfx).takeWhile p = l.takeWhile p ∧ (l ++ sfx).dropWhile p = z :: (zs ++ sfx) := by
  induction l with
  | nil => cases hd
  | cons c cs ih =>
      by_cases hc : p c = true
      · rw [List.dropWhile_cons_of_pos hc] at hd
        obtain ⟨ih1, ih2⟩ := ih hd
        constructor
        · rw [List.cons_append, List.takeWhile_cons_of_pos hc,
            List.takeWhile_cons_of_pos hc, ih1]
        · rw [List.cons_append, List.dropWhile_cons_of_pos hc]
          exact ih2
      · rw [List.dropWhile_cons_of_neg hc] at hd
        injection hd with h1 h2
        subst h1
        subst h2
        constructor
        · rw [List.cons_append, List.takeWhile_cons_of_neg hc,
            List.takeWhile_cons_of_neg hc]
        · rw [List.cons_append, List.dropWhile_cons_of_neg hc]

theorem matchLimitHere_append_none (a ds : List Char) (h : matchLimitHere a = none) :
    matchLimitHere (a ++ limSfx ds) = none := by
  match a with
  | [] => simp +decide [matchLimitHere, limSfx]
  | [c1] => simp +decide [matchLimitHere, limSfx]
  | [c1, c2] => simp +decide [matchLimitHere, limSfx]
  | [c1, c2, c3] => simp +decide [matchLimitHere, limSfx]
  | [c1, c2, c3, c4] => simp +decide [matchLimitHere, limSfx]
  | c1 :: c2 :: c3 :: c4 :: c5 :: arest =>
    by_cases hcond : (lowerChar c1 = 'l' && lowerChar c2 = 'i' && lowerChar c3 = 'm' &&
        lowerChar c4 = 'i' && lowerChar c5 = 't') = true
    · simp only [matchLimitHere, List.cons_append, if_pos hcond] at h ⊢
      rcases hdw : arest.dropWhile isWs with _ | ⟨y, ys⟩
      · have hall := dw_nil_all isWs arest hdw
        rw [List.takeWhile_append_of_pos hall, List.dropWhile_append_of_pos hall]
        simp +decide [limSfx]
      · obtain ⟨hgtw, hgdw⟩ := tw_split_append isWs arest (limSfx ds) y ys hdw
        rw [hdw] at h
        rw [hgtw, hgdw]
        by_cases htwe : (arest.takeWhile isWs).isEmpty = true
        · rw [if_pos htwe]
        · rw [if_neg htwe] at h ⊢
          rcases hdd : (y :: ys).dropWhile isDigit with _ | ⟨z, zs⟩
          · exfalso
            rw [hdd, tw_of_all isDigit (y :: ys) (dw_nil_all isDigit _ hdd)] at h
            simp at h
          · obtain ⟨hgtd, hgdd⟩ := tw_split_append isDigit (y :: ys) (limSfx ds) z zs hdd
            rw [hdd] at h
            rw [← List.cons_append, hgtd, hgdd]
            by_cases htde : ((y :: ys).takeWhile isDigit).isEmpty = true
            · rw [if_pos htde]
            · rw [if_neg htde] at h ⊢
              by_cases hword : isWordChar z = true
              · simp [hword]
              · exfalso
                simp [hword] at h
    · simp only [matchLimitHere, List.cons_append, if_neg hcond]

theorem digit_not_ws (c : Char) (h : isDigit c = true) : isWs c = false := by
  simp only [isDigit, Bool.and_eq_true, decide_eq_true_eq] at h
  simp only [isWs, Bool.or_eq_false_iff, decide_eq_false_iff_not]
  omega

theorem dw_all_nil {α : Type} (p : α → Bool) (l : List α) (h : ∀ x ∈ l, p x = true) :
    l.dropWhile p = [] := by
  induction l with
  | nil => rfl
  | cons c cs ih =>
      rw [List.dropWhile_cons_of_pos (h c (by simp)), ih (fun x hx => h x (by simp [hx]))]

theorem matchLimitHere_at_sfx (ds : List Char) (hne : ds ≠ [])
    (hdig : ∀ c ∈ ds, isDigit c = true) :
    matchLimitHere ('L' :: 'I' :: 'M' :: 'I' :: 'T' :: ' ' :: ds)
      = some (ds.getLastD '0', ds, []) := by
  rcases ds with _ | ⟨d, ds'⟩
  · cases hne rfl
  · have hd : isWs d = false := digit_not_ws d (hdig d (by simp))
    simp only [matchLimitHere]
    rw [if_pos (by decide)]
    rw [List.takeWhile_cons_of_pos (by decide), List.dropWhile_cons_of_pos (by decide),
      List.takeWhile_cons_of_neg (by simp [hd]), List.dropWhile_cons_of_neg (by simp [hd])]
    rw [tw_of_all isDigit (d :: ds') hdig, dw_all_nil isDigit (d :: ds') hdig]
    simp

theorem scanLimit_append (ds : List Char) (hne : ds ≠ [])
    (hdig : ∀ c ∈ ds, isDigit c = true) :
    ∀ (l : List Char) (prev : Option Char),
      firstBoundAux prev l = none →
      firstBoundAux prev (l ++ limSfx ds) = some ds ∧
      ∀ f : Nat, (l ++ limSfx ds).length ≤ f → countLimitFuel f prev (l ++ limSfx ds) = 1 := by
  intro l
  induction l with
  | nil =>
      intro prev _
      have hm1 : matchLimitHere (limSfx ds) = none := by
        simp +decide [matchLimitHere, limSfx]
      have hm2 := matchLimitHere_at_sfx ds hne hdig
      constructor
      · rw [List.nil_append]
        show firstBoundAux prev (limSfx ds) = some ds
        rw [limSfx] at hm1 ⊢
        rw [firstBoundAux]
        rw [show (' ' :: 'L' :: 'I' :: 'M' :: 'I' :: 'T' :: ' ' :: ds)
              = ' ' :: ('L' :: 'I' :: 'M' :: 'I' :: 'T' :: ' ' :: ds) from rfl] at hm1
        have : firstBoundAux (some ' ') ('L' :: 'I' :: 'M' :: 'I' :: 'T' :: ' ' :: ds)
            = some ds := by
          rw [firstBoundAux, if_pos (by decide), hm2]
        rw [hm1, this]
        exact ite_self _
      · intro f hf
        rw [List.nil_append] at hf ⊢
        rw [limSfx] at hm1 hf ⊢
        rcases f with _ | f1
        · simp at hf
        rcases f1 with _ | f2
        · simp [List.length_cons] at hf
        rw [countLimitFuel, hm1]
        have hstep : countLimitFuel (f2 + 1) (some ' ')
            ('L' :: 'I' :: 'M' :: 'I' :: 'T' :: ' ' :: ds) = 1 := by
          rw [countLimitFuel, if_pos (by decide), hm2]
          simp [countLimitFuel_nil]
        rw [hstep]
        exact ite_self _
  | cons c cs ih =>
      intro prev hyp
      by_cases hb : boundaryB prev = true
      · have hm : matchLimitHere (c :: cs) = none := by
          rcases hmm : matchLimitHere (c :: cs) with _ | v
          · rfl
          · rw [firstBoundAux, if_pos hb, hmm] at hyp
            cases hyp
        rw [firstBoundAux, if_pos hb, hm] at hyp
        have hm2 := matchLimitHere_append_none (c :: cs) ds hm
        rw [List.cons_append] at hm2
        obtain ⟨ih1, ih2⟩ := ih (some c) hyp
        constructor
        · rw [List.cons_append, firstBoundAux, if_pos hb, hm2]
          exact ih1
        · intro f hf
          rw [List.cons_append] at hf ⊢
          rcases f with _ | f1
          · simp at hf
          rw [countLimitFuel, if_pos hb, hm2]
          exact ih2 f1 (by simpa using Nat.le_of_succ_le_succ (by simpa [List.length_cons] using hf))
      · rw [firstBoundAux, if_neg hb] at hyp
        obtain ⟨ih1, ih2⟩ := ih (some c) hyp
        constructor
        · rw [List.cons_append, firstBoundAux, if_neg hb]
          exact ih1
        · intro f hf
          rw [List.cons_append] at hf ⊢
          rcases f with _ | f1
          · simp at hf
          rw [countLimitFuel, if_neg hb]
          exact ih2 f1 (by simpa using Nat.le_of_succ_le_succ (by simpa [List.length_cons] using hf))

theorem ensure_limit_spec (s : String) :
    hasLimitStr (ensure_limit s 1000) = true ∧
    firstBoundStr (ensure_limit s 1000) = some ((firstBoundStr s).getD "1000") := by
  by_cases h : hasLimitStr s = true
  · rw [ensure_limit, if_pos h]
    refine ⟨h, ?_⟩
    rcases hfb : firstBoundAux none s.data with _ | ds
    · rw [hasLimitStr, hasLimitL, hfb] at h
      cases h
    · rw [firstBoundStr, hfb]
      rfl
  · have hnone : firstBoundAux none s.data = none := by
      rcases hfb : firstBoundAux none s.data with _ | ds
      · rfl
      · rw [hasLimitStr, hasLimitL, hfb] at h
        simp at h
    have hdata : (ensure_limit s 1000).data = s.data ++ limSfx ['1', '0', '0', '0'] := by
      rw [ensure_limit, if_neg h]
      rw [String.data_append, String.data_append]
      rw [List.append_assoc]
      rfl
    obtain ⟨h1, _⟩ := scanLimit_append ['1', '0', '0', '0'] (by simp) (by decide)
      s.data none hnone
    constructor
    · rw [hasLimitStr, hasLimitL, hdata, h1]
      rfl
    · rw [firstBoundStr, hdata, h1, firstBoundStr, hnone]
      rfl

/-- Claim C2, counterexample: the claimed iff (read-only acceptance equals the
whole-word denylist rule) fails at the concrete input "select 1; drop": the
code accepts it (the denylist entry is "drop " with a trailing space, absent
here), while the whole-word rule of the claim rejects it. -/
theorem C2_cex :
    is_read_only "select 1; drop" ≠ spec_is_read_only "select 1; drop" := by decide

/-- Claim C2, amended: `is_read_only` returns true iff the trimmed, lowercased
text begins with "select" and does not contain, as a raw substring, any
denylist token with its trailing space ("insert ", "update ", "delete ",
"drop ", "alter ", "create ", "truncate ", "replace ", "attach ", "pragma ",
"vacuum ", "reindex ") — substring containment, not whole-word matching.  The
claim's own example "select 1; drop table x" is still rejected. -/
theorem C2_thm :
    (∀ text : String, is_read_only text = true ↔
      (isPfxL "select".data (lowerTrim text).data = true ∧
       ∀ tok ∈ forbiddenTokens, ¬ ∃ a b, (lowerTrim text).data = a ++ (tok.data ++ b))) ∧
    is_read_only "select 1; drop table x" = false := by
  constructor
  · intro text
    rw [is_read_only, Bool.and_eq_true, Bool.not_eq_true']
    constructor
    · rintro ⟨h1, h2⟩
      refine ⟨h1, fun tok htok hex => ?_⟩
      have hsub : hasSubL (lowerTrim text).data tok.data = true := (hasSubL_iff _ _).mpr hex
      have : forbiddenTokens.any (fun tok => hasSubL (lowerTrim text).data tok.data) = true :=
        List.any_eq_true.mpr ⟨tok, htok, hsub⟩
      rw [h2] at this
      cases this
    · rintro ⟨h1, h2⟩
      refine ⟨h1, ?_⟩
      by_cases hany : forbiddenTokens.any (fun tok => hasSubL (lowerTrim text).data tok.data) = true
      · obtain ⟨tok, htok, hsub⟩ := List.any_eq_true.mp hany
        exact absurd ((hasSubL_iff _ _).mp hsub) (h2 tok htok)
      · exact Bool.not_eq_true _ ▸ Bool.eq_false_iff.mpr hany
  · decide

/-- Claim C2, witness: the amended iff applied at "select 1", whose acceptance
by the code yields the prefix condition and absence of every denylist
substring. -/
theorem C2_wit :
    isPfxL "select".data (lowerTrim "select 1").data = true ∧
    ∀ tok ∈ forbiddenTokens, ¬ ∃ a b, (lowerTrim "select 1").data = a ++ (tok.data ++ b) :=
  (C2_thm.1 "select 1").mp (by decide)

/-- Claim C3, counterexample: with the first backend available and returning
non-read-only output ("drop table x"), `generate_sql_from_nl` does not raise:
it falls through to the second backend and returns its validated query. -/
theorem C3_cex :
    generate_sql_from_nl "q" "schema" (.answers "drop table x") (.answers "SELECT 1")
      = .ok "SELECT 1 LIMIT 1000" := rfl

/-- Claim C3, amended: when the first configured backend returns output that
fails read-only validation, the `ValueError` is swallowed by the surrounding
handler and the call behaves exactly as if the first backend were
unavailable — it falls through to the second backend; only when the second
backend's output fails validation does the function raise. -/
theorem C3_thm : ∀ (nl sch s s2 : String) (oa : OpenaiB),
    is_read_only (normalize_sqlite (strip_fences s)) = false →
    is_read_only (normalize_sqlite (strip_fences s2)) = false →
    generate_sql_from_nl nl sch (.answers s) oa = generate_sql_from_nl nl sch .unavailable oa ∧
    generate_sql_from_nl nl sch (.answers s) (.answers s2) = .error .validationError := by
  intro nl sch s s2 oa h1 h2
  constructor
  · simp [generate_sql_from_nl, h1]
  · simp [generate_sql_from_nl, h1, h2]

/-- Claim C3, witness: the amended behaviour at concrete inputs — a failing
first answer falls through to a second answer, and raises only when the
second answer also fails validation. -/
theorem C3_wit :
    generate_sql_from_nl "q" "schema" (.answers "drop table x") (.answers "SELECT 2") =
      generate_sql_from_nl "q" "schema" .unavailable (.answers "SELECT 2") ∧
    generate_sql_from_nl "q" "schema" (.answers "drop table x") (.answers "delete from t") =
      .error .validationError :=
  C3_thm "q" "schema" "drop table x" "delete from t" (.answers "SELECT 2")
    (by decide) (by decide)

/-- Claim C4, counterexample: with no keyword match, the local backend
unavailable and the hosted backend's import failing (key configured,
library broken), `classify_intent` propagates the import error instead of
returning an intent. -/
theorem C4_cex :
    classify_intent "hello" .unavailable .importError = .error .openaiImportError := rfl

/-- Claim C4, amended: `classify_intent` returns one of the four intent
values for every question and every backend condition except one — the
hosted backend's client construction failing (its import happens outside
the `try` block); under every other condition, including network errors
and malformed replies, it never raises. -/
theorem C4_thm : ∀ (q : String) (ol : OllamaB) (oa : OpenaiB),
    oa ≠ OpenaiB.importError → ∃ i, classify_intent q ol oa = .ok i := by
  intro q ol oa hoa
  simp only [classify_intent]
  by_cases h1 : (K10K_WORDS.any fun w => hasSubStr (lowerTrim q) w) = true
  · exact ⟨_, by rw [if_pos h1]⟩
  · rw [if_neg h1]
    by_cases h2 : (NEWS_WORDS.any fun w => hasSubStr (lowerTrim q) w) = true
    · exact ⟨_, by rw [if_pos h2]⟩
    · rw [if_neg h2]
      by_cases h3 : (CRM_WORDS.any fun w => hasSubStr (lowerTrim q) w) = true
      · exact ⟨_, by rw [if_pos h3]⟩
      · rw [if_neg h3]
        cases ol with
        | answers s =>
            rcases hl : parseLabel s with _ | j
            · cases oa with
              | notConfigured => exact ⟨Intent.crm_db, by simp [hl]⟩
              | importError => exact absurd rfl hoa
              | chatError => exact ⟨Intent.crm_db, by simp [hl]⟩
              | answers s2 =>
                  rcases hl2 : parseLabel s2 with _ | j2
                  · exact ⟨Intent.crm_db, by simp [hl, hl2]⟩
                  · exact ⟨j2, by simp [hl, hl2]⟩
            · exact ⟨j, by simp [hl]⟩
        | unavailable =>
            cases oa with
            | notConfigured => exact ⟨Intent.crm_db, rfl⟩
            | importError => exact absurd rfl hoa
            | chatError => exact ⟨Intent.crm_db, rfl⟩
            | answers s2 =>
                rcases hl2 : parseLabel s2 with _ | j2
                · exact ⟨Intent.crm_db, by simp [hl2]⟩
                · exact ⟨j2, by simp [hl2]⟩
        | chatError =>
            cases oa with
            | notConfigured => exact ⟨Intent.crm_db, rfl⟩
            | importError => exact absurd rfl hoa
            | chatError => exact ⟨Intent.crm_db, rfl⟩
            | answers s2 =>
                rcases hl2 : parseLabel s2 with _ | j2
                · exact ⟨Intent.crm_db, by simp [hl2]⟩
                · exact ⟨j2, by simp [hl2]⟩

/-- Claim C4, witness: the amended totality at a concrete environment with
no backend configured. -/
theorem C4_wit : ∃ i, classify_intent "hello" .unavailable .notConfigured = .ok i :=
  C4_thm "hello" .unavailable .notConfigured (by decide)

/-- Claim C5 (confirmed): whenever dialect normalization changes the failed
query's text and the result passes read-only validation,
`repair_sql_with_error` returns the normalized statement with a bound
enforced, identically for every backend behaviour — no completion call can
influence the result on this path. -/
theorem C5_thm : ∀ (nl sch bad err : String) (ol : OllamaB) (oa : OpenaiB),
    normalize_sqlite bad ≠ bad →
    is_read_only (normalize_sqlite bad) = true →
    repair_sql_with_error nl sch bad err ol oa =
      .ok (some (ensure_limit (normalize_sqlite bad) 1000)) := by
  intro nl sch bad err ol oa h1 h2
  simp only [repair_sql_with_error]
  rw [if_pos (by simp [bne_iff_ne, h1, h2])]

/-- Claim C5, witness: the vendor-limit query "SELECT TOP 10 name FROM t" is
repaired to "SELECT name FROM t LIMIT 10" even under a backend environment
that would answer garbage or raise. -/
theorem C5_wit :
    normalize_sqlite "SELECT TOP 10 name FROM t" ≠ "SELECT TOP 10 name FROM t" ∧
    is_read_only (normalize_sqlite "SELECT TOP 10 name FROM t") = true ∧
    repair_sql_with_error "q" "sch" "SELECT TOP 10 name FROM t" "no such column: TOP"
      (.answers "weird") .importError = .ok (some "SELECT name FROM t LIMIT 10") := by
  refine ⟨by decide, by decide, ?_⟩
  have h := C5_thm "q" "sch" "SELECT TOP 10 name FROM t" "no such column: TOP"
    (.answers "weird") .importError (by decide) (by decide)
  rw [show ensure_limit (normalize_sqlite "SELECT TOP 10 name FROM t") 1000
      = "SELECT name FROM t LIMIT 10" from by decide] at h
  exact h

/-- Claim C10 (confirmed): keyword-gate matching is raw substring containment
on the lowercased question, not whole-word matching: "filing" inside
"profiling" routes to the filing intent, and the CRM keyword "ae" inside
"aerospace" routes to the database intent, in both cases for every backend
behaviour (no completion backend is consulted). -/
theorem C10_thm : ∀ (ol : OllamaB) (oa : OpenaiB),
    classify_intent "we are profiling customers" ol oa = .ok .external_10k ∧
    classify_intent "aerospace" ol oa = .ok .crm_db := by
  intro ol oa
  exact ⟨rfl, rfl⟩

/-- Claim C6 (confirmed): every question whose stripped, lowercased text
contains a filing-vocabulary phrase as a substring is classified as the
filing intent, regardless of the backends' behaviour; since no news or CRM
condition is consulted, filing vocabulary takes strict priority. -/
theorem C6_thm : ∀ (q : String) (ol : OllamaB) (oa : OpenaiB),
    (∃ w ∈ K10K_WORDS, ∃ a b : List Char, (lowerTrim q).data = a ++ (w.data ++ b)) →
    classify_intent q ol oa = .ok .external_10k := by
  rintro q ol oa ⟨w, hw, hex⟩
  have hany : (K10K_WORDS.any fun w => hasSubStr (lowerTrim q) w) = true :=
    List.any_eq_true.mpr ⟨w, hw, (hasSubL_iff _ _).mpr hex⟩
  rw [classify_intent.eq_def, if_pos hany]

/-- Claim C6, witness: "summarize the annual report" is routed to the filing
intent under an erroring backend environment. -/
theorem C6_wit :
    classify_intent "summarize the annual report" .chatError .importError = .ok .external_10k :=
  C6_thm "summarize the annual report" .chatError .importError
    ⟨"annual report", by decide, "summarize the ".data, [], by decide⟩

/-- Claim C7 (confirmed): when no phrase of any of the three keyword lists
occurs in the question, the local backend is unavailable, fails, or returns
an invalid label, and the hosted backend is unconfigured, fails its call, or
returns an invalid label, `classify_intent` returns the database intent. -/
theorem C7_thm : ∀ (q : String) (ol : OllamaB) (oa : OpenaiB),
    (K10K_WORDS.any fun w => hasSubStr (lowerTrim q) w) = false →
    (NEWS_WORDS.any fun w => hasSubStr (lowerTrim q) w) = false →
    (CRM_WORDS.any fun w => hasSubStr (lowerTrim q) w) = false →
    (∀ s, ol = .answers s → parseLabel s = none) →
    (oa = .notConfigured ∨ oa = .chatError ∨ ∃ s, oa = .answers s ∧ parseLabel s = none) →
    classify_intent q ol oa = .ok .crm_db := by
  intro q ol oa h1 h2 h3 hol hoa
  rw [classify_intent.eq_def, if_neg (by simp [h1]), if_neg (by simp [h2]), if_neg (by simp [h3])]
  cases ol with
  | answers s =>
      rcases hoa with rfl | rfl | ⟨s3, rfl, hp⟩
      · simp [hol s rfl]
      · simp [hol s rfl]
      · simp [hol s rfl, hp]
  | unavailable =>
      rcases hoa with rfl | rfl | ⟨s3, rfl, hp⟩
      · rfl
      · rfl
      · simp [hp]
  | chatError =>
      rcases hoa with rfl | rfl | ⟨s3, rfl, hp⟩
      · rfl
      · rfl
      · simp [hp]

/-- Claim C7, witness: the empty question with no backend configured resolves
to the database intent. -/
theorem C7_wit : classify_intent "" .unavailable .notConfigured = .ok .crm_db :=
  C7_thm "" .unavailable .notConfigured (by decide) (by decide) (by decide)
    (fun s h => by cases h) (Or.inl rfl)

/-- Claim C8, counterexample: general idempotence fails — on
"SELECT TOP 5 TOP 6 x FROM t" the first normalization leaves a fresh leading
"SELECT TOP 6 ..." form, so a second application changes the text again. -/
theorem C8_cex :
    normalize_sqlite (normalize_sqlite "SELECT TOP 5 TOP 6 x FROM t") ≠
      normalize_sqlite "SELECT TOP 5 TOP 6 x FROM t" := by decide

/-- Claim C8, amended: `_normalize_sqlite` is the identity on every
already-normalized query — no surrounding whitespace, no leading
"SELECT TOP n" form, no ILIKE / TRUE / FALSE word, and exactly one
row-limit clause.  (The claim's "equivalently, applying the transform twice
equals applying it once" is dropped: it fails when a rewrite exposes a
second TOP head, see the counterexample.) -/
theorem C8_thm : ∀ s : String,
    pyStrip s = s →
    topMatch s.data = none →
    hasWordAux "ilike".data none s.data = false →
    hasWordAux "true".data none s.data = false →
    hasWordAux "false".data none s.data = false →
    countLimitStr s = 1 →
    normalize_sqlite s = s := by
  intro s h0 h1 h2 h3 h4 h5
  rw [countLimitStr] at h5
  simp only [normalize_sqlite, h0, h1, subWordL]
  rw [subWordFuel_id _ _ _ _ _ h2, subWordFuel_id _ _ _ _ _ h3,
    subWordFuel_id _ _ _ _ _ h4, h5]
  rfl

/-- Claim C8, witness: the already-normalized query
"SELECT name FROM t LIMIT 10" is returned unchanged. -/
theorem C8_wit :
    normalize_sqlite "SELECT name FROM t LIMIT 10" = "SELECT name FROM t LIMIT 10" :=
  C8_thm "SELECT name FROM t LIMIT 10" (by decide) (by decide) (by decide) (by decide)
    (by decide) (by decide)

theorem topMatch_digits (l n rest : List Char) (h : topMatch l = some (n, rest)) :
    n ≠ [] ∧ ∀ c ∈ n, isDigit c = true := by
  rw [topMatch] at h
  rcases hc1 : ciPref "select".data (l.dropWhile isWs) with _ | ⟨m1, l2⟩
  · simp [hc1] at h
  · simp only [hc1] at h
    by_cases hw1 : (l2.takeWhile isWs).isEmpty = true
    · rw [if_pos hw1] at h; cases h
    · rw [if_neg hw1] at h
      rcases hc2 : ciPref "top".data (l2.dropWhile isWs) with _ | ⟨m2, l4⟩
      · simp [hc2] at h
      · simp only [hc2] at h
        by_cases hw2 : (l4.takeWhile isWs).isEmpty = true
        · rw [if_pos hw2] at h; cases h
        · rw [if_neg hw2] at h
          by_cases hde : ((l4.dropWhile isWs).takeWhile isDigit).isEmpty = true
          · rw [if_pos hde] at h; cases h
          · rw [if_neg hde] at h
            by_cases hw3 : (((l4.dropWhile isWs).dropWhile isDigit).takeWhile isWs).isEmpty = true
            · rw [if_pos hw3] at h; cases h
            · rw [if_neg hw3] at h
              injection h with h
              injection h with hn hrest
              subst hn
              constructor
              · intro hnil
                rw [hnil] at hde
                exact hde rfl
              · intro c hc
                exact List.all_eq_true.mp
                  (List.all_takeWhile (p := isDigit) (l := l4.dropWhile isWs)) c hc

/-- Claim C9 (confirmed): "SELECT TOP 10 name FROM t" normalizes to
"SELECT name FROM t LIMIT 10", which ends in the portable clause and
contains no TOP token; in general a leading "SELECT TOP n" form is
rewritten to "SELECT <rest>", and when no row-limit clause is present the
clause "LIMIT n" is appended. -/
theorem C9_thm :
    normalize_sqlite "SELECT TOP 10 name FROM t" = "SELECT name FROM t LIMIT 10" ∧
    hasSubStr (asciiLower (normalize_sqlite "SELECT TOP 10 name FROM t")) "top" = false ∧
    ∀ (s : String) (n rest : List Char),
      topMatch (pyStrip s).data = some (n, rest) →
      hasLimitL ("SELECT ".data ++ rest) = false →
      hasWordAux "ilike".data none ("SELECT ".data ++ rest ++ limSfx n) = false →
      hasWordAux "true".data none ("SELECT ".data ++ rest ++ limSfx n) = false →
      hasWordAux "false".data none ("SELECT ".data ++ rest ++ limSfx n) = false →
      normalize_sqlite s = ⟨"SELECT ".data ++ rest ++ limSfx n⟩ := by
  refine ⟨by decide, by decide, ?_⟩
  intro s n rest htop hnl hw1 hw2 hw3
  obtain ⟨hne, hdig⟩ := topMatch_digits _ _ _ htop
  have hfb : firstBoundAux none ("SELECT ".data ++ rest) = none := by
    rcases hx : firstBoundAux none ("SELECT ".data ++ rest) with _ | d
    · rfl
    · rw [hasLimitL, hx] at hnl
      cases hnl
  obtain ⟨hfb2, hcnt⟩ := scanLimit_append n hne hdig ("SELECT ".data ++ rest) none hfb
  have happ : ("SELECT ".data ++ rest) ++ " LIMIT ".data ++ n
      = "SELECT ".data ++ rest ++ limSfx n := by
    rw [List.append_assoc ("SELECT ".data ++ rest)]
    rfl
  simp only [normalize_sqlite, htop, hnl, Bool.false_eq_true, if_false, subWordL, happ]
  rw [subWordFuel_id _ _ _ _ _ hw1, subWordFuel_id _ _ _ _ _ hw2,
    subWordFuel_id _ _ _ _ _ hw3,
    hcnt ("SELECT ".data ++ rest ++ limSfx n).length (by rw [List.append_assoc])]
  rfl

/-- Claim C9, witness: the general rewrite applied to
"select top 3 x from t". -/
theorem C9_wit : normalize_sqlite "select top 3 x from t" = "SELECT x from t LIMIT 3" := by
  have h := C9_thm.2.2 "select top 3 x from t" ['3'] "x from t".data
    (by decide) (by decide) (by decide) (by decide) (by decide)
  rw [h]
  decide

theorem gen_via_openai_shape (nl sch : String) (oa : OpenaiB) (r : String)
    (hg : generate_sql_from_nl nl sch .unavailable oa = .ok r) :
    ∃ pre, r = ensure_limit pre 1000 := by
  cases oa with
  | notConfigured => simp [generate_sql_from_nl] at hg
  | importError => simp [generate_sql_from_nl] at hg
  | chatError => simp [generate_sql_from_nl] at hg
  | answers c2 =>
      simp only [generate_sql_from_nl] at hg
      by_cases hro : is_read_only (normalize_sqlite (strip_fences c2)) = true
      · rw [if_pos hro] at hg
        injection hg with hg
        exact ⟨_, hg.symm⟩
      · rw [if_neg hro] at hg
        cases hg

theorem gen_ok_shape (nl sch : String) (ol : OllamaB) (oa : OpenaiB) (r : String)
    (hg : generate_sql_from_nl nl sch ol oa = .ok r) :
    ∃ pre, r = ensure_limit pre 1000 := by
  cases ol with
  | answers c =>
      simp only [generate_sql_from_nl] at hg
      by_cases hro : is_read_only (normalize_sqlite (strip_fences c)) = true
      · rw [if_pos hro] at hg
        injection hg with hg
        exact ⟨_, hg.symm⟩
      · rw [if_neg hro] at hg
        exact gen_via_openai_shape nl sch oa r hg
  | unavailable => exact gen_via_openai_shape nl sch oa r hg
  | chatError => exact gen_via_openai_shape nl sch oa r hg

theorem rep_via_openai_shape (nl sch bad err : String) (oa : OpenaiB) (r : String)
    (hsc : ¬(normalize_sqlite bad != bad && is_read_only (normalize_sqlite bad)) = true)
    (hr : repair_sql_with_error nl sch bad err .unavailable oa = .ok (some r)) :
    ∃ pre, r = ensure_limit pre 1000 := by
  simp only [repair_sql_with_error] at hr
  rw [if_neg hsc] at hr
  cases oa with
  | notConfigured => injection hr with hr; cases hr
  | importError => cases hr
  | chatError => injection hr with hr; cases hr
  | answers c2 =>
      have hr2 : (if is_read_only (normalize_sqlite (strip_fences c2)) = true then
            (Except.ok (some (ensure_limit (normalize_sqlite (strip_fences c2)) 1000)) :
              Except RepErr (Option String))
          else Except.ok none) = Except.ok (some r) := hr
      by_cases hro : is_read_only (normalize_sqlite (strip_fences c2)) = true
      · rw [if_pos hro] at hr2
        injection hr2 with hr2
        injection hr2 with hr2
        exact ⟨_, hr2.symm⟩
      · rw [if_neg hro] at hr2
        injection hr2 with hr2
        cases hr2

theorem rep_ok_shape (nl sch bad err : String) (ol : OllamaB) (oa : OpenaiB) (r : String)
    (hr : repair_sql_with_error nl sch bad err ol oa = .ok (some r)) :
    ∃ pre, r = ensure_limit pre 1000 := by
  by_cases hsc : (normalize_sqlite bad != bad && is_read_only (normalize_sqlite bad)) = true
  · simp only [repair_sql_with_error] at hr
    rw [if_pos hsc] at hr
    injection hr with hr
    injection hr with hr
    exact ⟨_, hr.symm⟩
  · cases ol with
    | answers c =>
        simp only [repair_sql_with_error] at hr
        rw [if_neg hsc] at hr
        have hr2 : (if is_read_only (normalize_sqlite (strip_fences c)) = true then
              (Except.ok (some (ensure_limit (normalize_sqlite (strip_fences c)) 1000)) :
                Except RepErr (Option String))
            else Except.ok none) = Except.ok (some r) := hr
        by_cases hro : is_read_only (normalize_sqlite (strip_fences c)) = true
        · rw [if_pos hro] at hr2
          injection hr2 with hr2
          injection hr2 with hr2
          exact ⟨_, hr2.symm⟩
        · rw [if_neg hro] at hr2
          injection hr2 with hr2
          cases hr2
    | unavailable => exact rep_via_openai_shape nl sch bad err oa r hsc hr
    | chatError => exact rep_via_openai_shape nl sch bad err oa r hsc hr

/-- Claim C1, amended: every query string returned by `generate_sql_from_nl`
and every non-None query string returned by `repair_sql_with_error` is the
limit-enforcement step applied to the run's own pre-enforcement candidate
text — the normalization of the failed query on the repair short-circuit,
or the normalization of the de-fenced reply of whichever backend actually
produced the result — so it contains at least one row-limit clause, and the
bound of its first row-limit clause equals the first bound of that candidate
text, or the default 1000 if the candidate had none.  Each conjunct below
pins the candidate of one control-flow path exactly; the first conjunct
gives the bound rule of limit-enforcement itself. -/
theorem C1_thm :
    (∀ s : String, hasLimitStr (ensure_limit s 1000) = true ∧
       firstBoundStr (ensure_limit s 1000) = some ((firstBoundStr s).getD "1000")) ∧
    (∀ (nl sch c : String) (oa : OpenaiB) (r : String),
       generate_sql_from_nl nl sch (.answers c) oa = .ok r →
       is_read_only (normalize_sqlite (strip_fences c)) = true →
       r = ensure_limit (normalize_sqlite (strip_fences c)) 1000) ∧
    (∀ (nl sch : String) (ol : OllamaB) (c2 r : String),
       (ol = OllamaB.unavailable ∨ ol = OllamaB.chatError ∨
        ∃ c, ol = OllamaB.answers c ∧
          is_read_only (normalize_sqlite (strip_fences c)) = false) →
       generate_sql_from_nl nl sch ol (.answers c2) = .ok r →
       r = ensure_limit (normalize_sqlite (strip_fences c2)) 1000) ∧
    (∀ (nl sch bad err : String) (ol : OllamaB) (oa : OpenaiB),
       normalize_sqlite bad ≠ bad →
       is_read_only (normalize_sqlite bad) = true →
       repair_sql_with_error nl sch bad err ol oa =
         .ok (some (ensure_limit (normalize_sqlite bad) 1000))) ∧
    (∀ (nl sch bad err c : String) (oa : OpenaiB) (r : String),
       (normalize_sqlite bad != bad && is_read_only (normalize_sqlite bad)) = false →
       repair_sql_with_error nl sch bad err (.answers c) oa = .ok (some r) →
       r = ensure_limit (normalize_sqlite (strip_fences c)) 1000) ∧
    (∀ (nl sch bad err : String) (ol : OllamaB) (c2 r : String),
       (normalize_sqlite bad != bad && is_read_only (normalize_sqlite bad)) = false →
       (ol = OllamaB.unavailable ∨ ol = OllamaB.chatError) →
       repair_sql_with_error nl sch bad err ol (.answers c2) = .ok (some r) →
       r = ensure_limit (normalize_sqlite (strip_fences c2)) 1000) ∧
    (∀ (nl sch bad err : String) (ol : OllamaB) (oa : OpenaiB) (r : String),
       (generate_sql_from_nl nl sch ol oa = .ok r ∨
        repair_sql_with_error nl sch bad err ol oa = .ok (some r)) →
       hasLimitStr r = true) := by
  refine ⟨ensure_limit_spec, ?_, ?_, ?_, ?_, ?_, ?_⟩
  · intro nl sch c oa r hg hro
    simp only [generate_sql_from_nl] at hg
    rw [if_pos hro] at hg
    exact (Except.ok.inj hg).symm
  · intro nl sch ol c2 r hol hg
    have key : generate_sql_from_nl nl sch .unavailable (.answers c2) = .ok r →
        r = ensure_limit (normalize_sqlite (strip_fences c2)) 1000 := by
      intro hg2
      simp only [generate_sql_from_nl] at hg2
      by_cases hro2 : is_read_only (normalize_sqlite (strip_fences c2)) = true
      · rw [if_pos hro2] at hg2
        exact (Except.ok.inj hg2).symm
      · rw [if_neg hro2] at hg2
        exact Except.noConfusion hg2
    rcases hol with rfl | rfl | ⟨c, rfl, hro⟩
    · exact key hg
    · exact key hg
    · simp only [generate_sql_from_nl] at hg
      rw [if_neg (by simp [hro])] at hg
      exact key hg
  · intro nl sch bad err ol oa h1 h2
    simp only [repair_sql_with_error]
    rw [if_pos (by simp [bne_iff_ne, h1, h2])]
  · intro nl sch bad err c oa r hsc hr
    simp only [repair_sql_with_error] at hr
    rw [if_neg (by simp [hsc])] at hr
    have hr2 : (if is_read_only (normalize_sqlite (strip_fences c)) = true then
          (Except.ok (some (ensure_limit (normalize_sqlite (strip_fences c)) 1000)) :
            Except RepErr (Option String))
        else Except.ok none) = Except.ok (some r) := hr
    by_cases hro : is_read_only (normalize_sqlite (strip_fences c)) = true
    · rw [if_pos hro] at hr2
      exact (Option.some.inj (Except.ok.inj hr2)).symm
    · rw [if_neg hro] at hr2
      exact Option.noConfusion (Except.ok.inj hr2)
  · intro nl sch bad err ol c2 r hsc hol hr
    have key : repair_sql_with_error nl sch bad err .unavailable (.answers c2) = .ok (some r) →
        r = ensure_limit (normalize_sqlite (strip_fences c2)) 1000 := by
      intro hrx
      simp only [repair_sql_with_error] at hrx
      rw [if_neg (by simp [hsc])] at hrx
      have hr2 : (if is_read_only (normalize_sqlite (strip_fences c2)) = true then
            (Except.ok (some (ensure_limit (normalize_sqlite (strip_fences c2)) 1000)) :
              Except RepErr (Option String))
          else Except.ok none) = Except.ok (some r) := hrx
      by_cases hro : is_read_only (normalize_sqlite (strip_fences c2)) = true
      · rw [if_pos hro] at hr2
        exact (Option.some.inj (Except.ok.inj hr2)).symm
      · rw [if_neg hro] at hr2
        exact Option.noConfusion (Except.ok.inj hr2)
    rcases hol with rfl | rfl
    · exact key hr
    · exact key hr
  · intro nl sch bad err ol oa r h
    have hshape : ∃ pre, r = ensure_limit pre 1000 := by
      rcases h with hg | hr
      · exact gen_ok_shape nl sch ol oa r hg
      · exact rep_ok_shape nl sch bad err ol oa r hr
    obtain ⟨pre, rfl⟩ := hshape
    exact (ensure_limit_spec pre).1

/-- Claim C1, witness: for a first backend answering "SELECT 1", the theorem
pins the returned query to the limit-enforcement of that reply's normalized
candidate, whose first (and appended) bound is the default 1000. -/
theorem C1_wit :
    "SELECT 1 LIMIT 1000" =
      ensure_limit (normalize_sqlite (strip_fences "SELECT 1")) 1000 ∧
    firstBoundStr "SELECT 1 LIMIT 1000" =
      some ((firstBoundStr (normalize_sqlite (strip_fences "SELECT 1"))).getD "1000") := by
  have h2 := C1_thm.2.1 "q" "sch" "SELECT 1" OpenaiB.notConfigured "SELECT 1 LIMIT 1000"
    rfl (by decide)
  refine ⟨h2, ?_⟩
  have h1 := (C1_thm.1 (normalize_sqlite (strip_fences "SELECT 1"))).2
  rw [← h2] at h1
  exact h1

/-- Claim C1, counterexample: "exactly one row-limit clause" fails — for a
backend answer with degenerate overlapping limit text, the de-duplication
pass deletes the recognized clauses but thereby fuses new ones, and the
returned query contains two row-limit clauses. -/
theorem C1_cex :
    generate_sql_from_nl "q" "sch" (.answers "select a limit limit 1 2 limit limit 3 4")
      .notConfigured = .ok "select a limit  2 limit  4" ∧
    countLimitStr "select a limit  2 limit  4" = 2 :=
  ⟨rfl, by decide⟩
